import Mathlib

/-!
Verification development for two components of this repository:

* `xla/python/callback.cc` — the CPU callback invocation boundary
  (`CpuCallback::PrepareAndCallInternal`, `CallInternal`, `PrepareAndCall`,
  `Call`), embedded directly from the source.
* `xla/service/gpu/command_buffer_scheduling.h` — the command-buffer
  lifting pass.  Only the class declaration is present in the repository,
  so the pass bodies are modelled from the specification document.

Machine integers that only ever take part in comparisons are embedded as
`Int`/`Nat`; byte buffers are lists of bytes; Python objects are a small
inductive; fallible code returns `Except String`.
-/

namespace Callback

/-- Element type of a callback argument or result.  `TOKEN` is the
distinguished `xla::TOKEN` primitive type; the other constructors stand for
representative numeric dtypes. -/
inductive PrimitiveType where
  | TOKEN
  | F32
  | S32
deriving DecidableEq

/-- `xla::primitive_util::ByteWidth`, restricted to the embedded types. -/
def byteWidth : PrimitiveType → Nat
  | .TOKEN => 0
  | .F32 => 4
  | .S32 => 4

/-- A Python object as visible across the callback boundary: `None`, a numpy
array (dims, strides, raw bytes), a tuple, or some other object (carrying its
`repr`). -/
inductive PyObject where
  | pyNone
  | pyArray (dims : List Int) (strides : List Int) (data : List Nat)
  | pyTuple (elems : List PyObject)
  | pyOther (descr : String)

/-- `py::object::is_none`. -/
def PyObject.is_none : PyObject → Bool
  | .pyNone => true
  | _ => false

/-- Metadata for one callback argument (`CpuCallback::Arg`): its primitive
type, dims and strides, as used by `PrepareAndCallInternal` to build the
numpy view over the input buffer. -/
structure ArgSpec where
  type : PrimitiveType
  dims : List Int
  strides : List Int
deriving DecidableEq

/-- Metadata for one callback result (`CpuCallback::Result`): primitive type,
expected dims (checked in `CallInternal`), expected strides and reversed
layout (used by the copy-out step of `PrepareAndCallInternal`), and the byte
size of the output buffer. -/
structure ResultSpec where
  type : PrimitiveType
  expected_dims : List Int
  expected_strides : List Int
  reversed_layout : List Int
  size_in_bytes : Nat
deriving DecidableEq

/-- The state of a `CpuCallback` object relevant to `PrepareAndCall` /
`Call`: the argument and result metadata (`args_`, `results_`).  The Python
callable itself is passed separately as a function value. -/
structure CpuCallback where
  args : List ArgSpec
  results : List ResultSpec
deriving DecidableEq

/-- The user-registered Python callable.  A raised Python exception
(`py::error_already_set`) is modelled as `.error` carrying `e.what()`;
a normal return is `.ok` with the returned object. -/
abbrev Callable : Type := List PyObject → Except String PyObject

/-- Marshalling of one input for callback.cc lines 46-58: a `TOKEN` argument
is passed as `py::none()`, every other argument as a (read-only) numpy array
over the input buffer with the declared dims and strides. -/
def marshalArg (input : List Nat) (spec : ArgSpec) : PyObject :=
  match spec.type with
  | .TOKEN => .pyNone
  | _ => .pyArray spec.dims spec.strides input

/-- The argument-marshalling loop of `PrepareAndCallInternal`. -/
def marshalArgs (specs : List ArgSpec) (inputs : List (List Nat)) : List PyObject :=
  (specs.zip inputs).map (fun p => marshalArg p.2 p.1)

/-- `py::cast<py::array>`, modelled as numpy conversion, which is total on
the embedded object vocabulary: an array is itself; any non-array object
(including `None`) converts to a 0-d array with empty dims and strides.
Returns (dims, strides, data). -/
def castToArray : PyObject → List Int × List Int × List Nat
  | .pyArray d s bytes => (d, s, bytes)
  | _ => ([], [], [])

/-- The per-result validation loop of `CpuCallback::CallInternal`
(callback.cc lines 126-149): a `TOKEN` result must be `None` (and its shape
is not checked); any other result is cast to an array whose dims must equal
`expected_dims`.  Error messages are abridged from the source format
strings. -/
def checkResultElems : List ResultSpec → List PyObject → Except String Unit
  | [], _ => .ok ()
  | spec :: specs, out :: outs =>
      if spec.type = .TOKEN then
        if out.is_none then checkResultElems specs outs
        else .error "Token output from Python callback should be None"
      else
        if (castToArray out).1 = spec.expected_dims then checkResultElems specs outs
        else .error "Mismatched result shape for return value from CPU callback"
  | _ :: _, [] => .ok ()

/-- `CpuCallback::CallInternal` (callback.cc lines 105-151): invoke the
callable, converting a raised Python exception into an internal-error status;
then require the result to be a tuple of exactly `results_.size()` elements
and validate each element. -/
def CallInternal (cb : CpuCallback) (callable : Callable) (args : List PyObject) :
    Except String (List PyObject) :=
  match callable args with
  | .error e => .error ("CpuCallback error: " ++ e)
  | .ok (.pyTuple elems) =>
      if elems.length ≠ cb.results.length then
        .error "CPU callback expected a tuple with a different number of results"
      else
        match checkResultElems cb.results elems with
        | .error e => .error e
        | .ok _ => .ok elems
  | .ok _ => .error "CPU callback expected a tuple result"

/-- Parameters of an `xla::TransposePlan` (`TransposePlan::Options`) as
filled in by the copy-out step: element byte size, dims, permutation
(`reversed_layout`), and input striding. -/
structure TransposeOptions where
  elem_size_in_bytes : Nat
  dims : List Int
  permutation : List Int
  input_layout : List Int
deriving DecidableEq

/-- What the copy-out step does to one output buffer: a direct `memcpy` of
`size_in_bytes` bytes, or a transposition of the array bytes under a plan. -/
inductive CopyAction where
  | direct (bytes : List Nat) (size : Nat)
  | transposed (plan : TransposeOptions) (bytes : List Nat)
deriving DecidableEq

/-- `TransposePlanCache::GetOrCreate`: the cache is keyed by the full
`TransposePlan.Options`; a hit returns the cached plan and leaves the cache
unchanged, a miss creates the plan (identified with its options) and inserts
it. -/
def getOrCreate (opts : TransposeOptions) (cache : List TransposeOptions) :
    TransposeOptions × List TransposeOptions :=
  if opts ∈ cache then (opts, cache) else (opts, cache ++ [opts])

/-- One iteration of the copy-out loop of `PrepareAndCallInternal`
(callback.cc lines 62-86): cast the result element to an array; if its
strides equal `expected_strides`, `memcpy` `size_in_bytes` bytes into the
output buffer; otherwise build `TransposePlan::Options` from the element
size, the array dims, the reversed layout and the array strides, fetch a
plan from the cache, and execute it.  Note the loop has no special case for
`TOKEN` results. -/
def copyOutOne (spec : ResultSpec) (out : PyObject) (cache : List TransposeOptions) :
    CopyAction × List TransposeOptions :=
  let a := castToArray out
  if a.2.1 = spec.expected_strides then
    (.direct a.2.2 spec.size_in_bytes, cache)
  else
    let opts : TransposeOptions :=
      { elem_size_in_bytes := byteWidth spec.type, dims := a.1,
        permutation := spec.reversed_layout, input_layout := a.2.1 }
    let pc := getOrCreate opts cache
    (.transposed pc.1 a.2.2, pc.2)

/-- The copy-out loop of `PrepareAndCallInternal` over all results, threading
the transpose-plan cache. -/
def copyOut : List ResultSpec → List PyObject → List TransposeOptions →
    List CopyAction × List TransposeOptions
  | [], _, cache => ([], cache)
  | spec :: specs, out :: outs, cache =>
      let ac := copyOutOne spec out cache
      let rest := copyOut specs outs ac.2
      (ac.1 :: rest.1, rest.2)
  | _ :: _, [], cache => ([], cache)

/-- `CpuCallback::PrepareAndCallInternal`: marshal the inputs, run
`CallInternal`, then copy the validated results out.  The returned value
records the copy actions performed on the output buffers and the final
plan-cache state. -/
def PrepareAndCallInternal (cb : CpuCallback) (callable : Callable)
    (inputs : List (List Nat)) (cache : List TransposeOptions) :
    Except String (List CopyAction × List TransposeOptions) :=
  match CallInternal cb callable (marshalArgs cb.args inputs) with
  | .error e => .error e
  | .ok outs => .ok (copyOut cb.results outs cache)

/-- `CpuCallback::PrepareAndCall(void*, void**, XlaCustomCallStatus*)`
(callback.cc lines 91-99): run the internal pipeline; on failure record the
message in the out-of-band status slot (`XlaCustomCallStatusSetFailure`) and
return nothing; on success the slot stays unset.  The first component is the
status slot. -/
def PrepareAndCall (cb : CpuCallback) (callable : Callable)
    (inputs : List (List Nat)) (cache : List TransposeOptions) :
    Option String × Option (List CopyAction × List TransposeOptions) :=
  match PrepareAndCallInternal cb callable inputs cache with
  | .error e => (some e, none)
  | .ok r => (none, some r)

/-- `CpuCallback::Call(py::tuple, XlaCustomCallStatus*)` (callback.cc lines
157-166): run `CallInternal`; on failure record the message in the status
slot and return `std::nullopt`. -/
def CallWithStatus (cb : CpuCallback) (callable : Callable) (args : List PyObject) :
    Option String × Option (List PyObject) :=
  match CallInternal cb callable args with
  | .error e => (some e, none)
  | .ok t => (none, some t)

end Callback

namespace Sched

/-- Modelled from the spec: the command-buffer config of
`CommandBufferScheduling` (the implementation file
`command_buffer_scheduling.cc` is not in the repository; only the class
declaration is).  A set of enabled op-kind tags plus, per tag, an optional
minimum (toolkit, driver) version pair. -/
structure CommandBufferConfig where
  enabledTags : List Nat
  requirement : Nat → Option (Int × Int)

/-- Modelled from the spec (section 4.1): `IsEligible(opKind, config,
toolkitVersion, driverVersion)`.  An op kind is eligible iff its tag is in
the config set and either it has no version requirement or both the toolkit
and the driver version meet the declared minimum.  The two versions are the
pass construction parameters `gpu_toolkit_version_` / `gpu_driver_version_`. -/
def IsEligible (tag : Nat) (config : CommandBufferConfig) (toolkit driver : Int) : Bool :=
  decide (tag ∈ config.enabledTags) &&
    (match config.requirement tag with
     | none => true
     | some mv => decide (mv.1 ≤ toolkit) && decide (mv.2 ≤ driver))

/-- Modelled from the spec: an operand reference — a node id, together with
an optional tuple index when the reference is an indexed extraction of a
multi-output node (the call-node convention of section 4.4). -/
structure Ref where
  node : Nat
  elem : Option Nat := none
deriving DecidableEq

/-- Modelled from the spec (section 3): an operation node — identity, kind
tag, optional called computation (for call-like nodes), ordered operands. -/
structure Instruction where
  id : Nat
  tag : Nat
  callTarget : Option Nat := none
  operands : List Ref := []
deriving DecidableEq

/-- Op-kind tag for parameter nodes. -/
def parameterTag : Nat := 0
/-- Op-kind tag for constant nodes. -/
def constantTag : Nat := 1
/-- Op-kind tag for call nodes inserted by the rewriter. -/
def callTag : Nat := 2
/-- Op-kind tag for the synthesized tuple-like aggregate root. -/
def tupleTag : Nat := 3

/-- Modelled from the spec (section 3): a computation — identity, an
execution-thread tag, the linear schedule, the distinguished root node, and
the re-entry guard marker set on sub-computations created by lifting
(section 2: "idempotent re-entry guard for already-lifted sub-programs"). -/
structure Computation where
  id : Nat
  thread : Nat := 0
  schedule : List Instruction
  rootId : Nat
  isCommandBuffer : Bool := false
deriving DecidableEq

/-- Modelled from the spec (section 3): a module owns its computations. -/
structure Module where
  computations : List Computation
deriving DecidableEq

/-- The ids of the nodes of a run. -/
def runIds (seq : List Instruction) : List Nat := seq.map (·.id)

/-- Modelled from the spec (section 4.2): per-node eligibility as used by
the run collector.  A call into an already-processed sub-computation is
treated as a non-eligible leaf boundary; otherwise the node is eligible iff
its kind tag is eligible under the config and versions. -/
def nodeEligible (config : CommandBufferConfig) (toolkit driver : Int)
    (processed : List Nat) (i : Instruction) : Bool :=
  (match i.callTarget with
   | some t => decide (t ∉ processed)
   | none => true) && IsEligible i.tag config toolkit driver

/-- Modelled from the spec (section 4.2): the left-to-right scan of
`CollectCommandBufferSequences`, accumulating the current candidate run in
`cur`; an ineligible node (or the end of the schedule) closes the run, which
is emitted iff its length reaches `minLen`. -/
def collectGo (elig : Instruction → Bool) (minLen : Nat) (cur : List Instruction) :
    List Instruction → List (List Instruction)
  | [] => if minLen ≤ cur.length then [cur] else []
  | a :: rest =>
      if elig a then collectGo elig minLen (cur ++ [a]) rest
      else (if minLen ≤ cur.length then [cur] else []) ++ collectGo elig minLen [] rest

/-- Modelled from the spec:
`CommandBufferScheduling::CollectCommandBufferSequences` (declared at
command_buffer_scheduling.h lines 90-93; body not in the repository). -/
def CollectCommandBufferSequences (inst_sequence : List Instruction)
    (config : CommandBufferConfig) (toolkit driver : Int)
    (processed : List Nat) (min_num_commands : Nat) : List (List Instruction) :=
  collectGo (nodeEligible config toolkit driver processed) min_num_commands [] inst_sequence

/-- Interleaving of gap segments and runs: `riffle [g0, g1, ..., gn] [r1,
..., rn] = g0 ++ r1 ++ g1 ++ ... ++ rn ++ gn`.  Exhibiting such a
decomposition of a schedule shows the runs are pairwise disjoint, contiguous
sub-sequences appearing in source order. -/
def riffle : List (List Instruction) → List (List Instruction) → List Instruction
  | g :: gaps, r :: runs => g ++ r ++ riffle gaps runs
  | g :: _, [] => g
  | [], _ => []

/-- First-occurrence de-duplication (auxiliary, with the set of already-seen
ids). -/
def dedupFirstAux : List Nat → List Nat → List Nat
  | _, [] => []
  | seen, a :: l =>
      if a ∈ seen then dedupFirstAux seen l
      else a :: dedupFirstAux (seen ++ [a]) l

/-- First-occurrence de-duplication, giving the deterministic parameter
ordering of spec section 4.3 step 1. -/
def dedupFirst (l : List Nat) : List Nat := dedupFirstAux [] l

/-- The operands of run nodes whose defining node lies outside the run, in
order of use within the run (with duplicates). -/
def firstUses (seq : List Instruction) : List Nat :=
  ((seq.map (fun i => i.operands.map (·.node))).flatten).filter
    (fun o => decide (o ∉ runIds seq))

/-- Whether node `n` has at least one user outside the run `seq` in the
parent computation `P`. -/
def hasExternalUser (P : Computation) (seq : List Instruction) (n : Nat) : Bool :=
  P.schedule.any (fun u =>
    decide (u.id ∉ runIds seq) && u.operands.any (fun r => decide (r.node = n)))

/-- Modelled from the spec (section 4.3 step 2): the results of a run — the
run nodes that are the parent's root or have a user outside the run, in run
order. -/
def resultIds (P : Computation) (seq : List Instruction) : List Nat :=
  (seq.filter (fun i => decide (i.id = P.rootId) || hasExternalUser P seq i.id)).map (·.id)

/-- Largest node id present in a computation's schedule. -/
def maxIdIn (P : Computation) : Nat := P.schedule.foldr (fun i m => max i.id m) 0

/-- Modelled from the spec: the `CommandBuffer` intermediate artifact of
`CommandBufferScheduling` (command_buffer_scheduling.h lines 101-113):
arguments, results, the new sub-computation, and the original-to-clone
mapping. -/
structure CommandBuffer where
  arguments : List Nat
  results : List Nat
  computation : Computation
  instMapping : List (Nat × Nat)
deriving DecidableEq

/-- Clone of one run node (section 4.3 step 3): internal operand edges are
kept through the identity mapping, operands pointing outside the run are
rewritten to the parameter standing for that external node. -/
def cloneInstruction (base : Nat) (args : List Nat) (rids : List Nat)
    (i : Instruction) : Instruction :=
  { i with operands := i.operands.map (fun r =>
      if r.node ∈ rids then r else { r with node := base + args.indexOf r.node }) }

/-- The parameter nodes of the new sub-computation, one per argument, placed
at the front of its schedule (section 4.3 step 4). -/
def prepParams (base : Nat) (n : Nat) : List Instruction :=
  (List.range n).map (fun k =>
    { id := base + k, tag := parameterTag, callTarget := none, operands := [] })

/-- The body of the new sub-computation: parameters in front, then the
cloned run; the single result is the root directly, several results are
aggregated under a synthesized tuple-like root in run order (section 4.3
step 2). -/
def prepBody (subId : Nat) (P : Computation) (seq : List Instruction) : Computation :=
  let args := dedupFirst (firstUses seq)
  let base := maxIdIn P + 1
  let params := prepParams base args.length
  let clones := seq.map (cloneInstruction base args (runIds seq))
  match resultIds P seq with
  | [r] => { id := subId, thread := P.thread, schedule := params ++ clones,
             rootId := r, isCommandBuffer := true }
  | rs => { id := subId, thread := P.thread,
            schedule := params ++ clones ++
              [{ id := base + args.length, tag := tupleTag, callTarget := none,
                 operands := rs.map (fun n => { node := n, elem := none }) }],
            rootId := base + args.length, isCommandBuffer := true }

/-- Modelled from the spec:
`CommandBufferScheduling::PrepareCommandBuffer` (declared at
command_buffer_scheduling.h lines 119-120; body not in the repository).
Computes the run's external arguments (first-use order, de-duplicated) and
results, and builds the sub-computation body.  If the clone mapping would be
missing an instruction (duplicate node identity in the run), it reports an
internal error and the run is abandoned (section 4.3, failure). -/
def prepareCommandBuffer (subId : Nat) (P : Computation) (seq : List Instruction) :
    Except String CommandBuffer :=
  if (runIds seq).Nodup then
    .ok { arguments := dedupFirst (firstUses seq),
          results := resultIds P seq,
          computation := prepBody subId P seq,
          instMapping := seq.map (fun i => (i.id, i.id)) }
  else .error "command buffer clone mapping is missing an instruction"

/-- Redirection of one operand reference by the rewriter (section 4.4): a
reference to a run result becomes a reference to the call node's output —
direct if the command buffer has a single result, an indexed extraction at
the result's run position otherwise; any other reference is unchanged. -/
def callOutputRef (callId : Nat) (results : List Nat) (r : Ref) : Ref :=
  if r.node ∈ results then
    match results with
    | [_] => { node := callId, elem := none }
    | _ => { node := callId, elem := some (results.indexOf r.node) }
  else r

/-- Redirection of all operands of one (external) instruction. -/
def rewireInst (callId : Nat) (results : List Nat) (i : Instruction) : Instruction :=
  { i with operands := i.operands.map (callOutputRef callId results) }

/-- The call node inserted in place of a run. -/
def makeCallInstruction (callId : Nat) (cb : CommandBuffer) : Instruction :=
  { id := callId, tag := callTag, callTarget := some cb.computation.id,
    operands := cb.arguments.map (fun a => { node := a, elem := none }) }

/-- Schedule splice of the rewriter: the call node takes the position of the
first run node, all run nodes are removed, every remaining node is rewired
through `rw`. -/
def spliceCall (rids : List Nat) (callInst : Instruction)
    (rw : Instruction → Instruction) : List Instruction → List Instruction
  | [] => []
  | i :: rest =>
      if i.id ∈ rids then
        callInst :: (rest.filter (fun j => decide (j.id ∉ rids))).map rw
      else rw i :: spliceCall rids callInst rw rest

/-- Modelled from the spec:
`CommandBufferScheduling::RewriteCommandBuffer` (declared at
command_buffer_scheduling.h lines 124-126; body not in the repository).
Replaces the run by a single call node at the position of the run's first
node, rewires all remaining nodes to read run results from the call node's
outputs, and makes the call node the new root when the run contained the
former root (section 4.4). -/
def rewriteCommandBuffer (callId : Nat) (parent : Computation)
    (seq : List Instruction) (cb : CommandBuffer) : Computation :=
  { parent with
      schedule := spliceCall (runIds seq) (makeCallInstruction callId cb)
        (rewireInst callId cb.results) parent.schedule,
      rootId := if parent.rootId ∈ runIds seq then callId else parent.rootId }

/-- Modelled from the spec: the driver state of one `Run` invocation — the
sub-computations created so far, the processed set, the changed flag, and a
fresh-id supply for new computation identities. -/
structure PassState where
  newComps : List Computation
  processed : List Nat
  changed : Bool
  fresh : Nat
deriving DecidableEq

/-- Modelled from the spec: lifting of one qualifying run — prepare the
command buffer from the run's nodes as they currently stand in the parent,
rewrite the parent, append the new sub-computation, record its identity in
the processed set, and mark the invocation as changed.  The splice of a
single run is all-or-nothing: on a prepare error nothing is rewritten. -/
def liftSeq (acc : Computation × PassState) (seq : List Instruction) :
    Except String (Computation × PassState) :=
  let parent := acc.1
  let st := acc.2
  let seqNow := parent.schedule.filter (fun i => decide (i.id ∈ runIds seq))
  match prepareCommandBuffer st.fresh parent seqNow with
  | .error e => .error e
  | .ok cb =>
      .ok (rewriteCommandBuffer (maxIdIn parent + 1) parent seqNow cb,
           { newComps := st.newComps ++ [cb.computation],
             processed := st.processed ++ [cb.computation.id],
             changed := true,
             fresh := st.fresh + 1 })

/-- Lifting of all qualifying runs of one computation, short-circuiting on
the first internal error. -/
def liftSeqs : Computation × PassState → List (List Instruction) →
    Except String (Computation × PassState)
  | acc, [] => .ok acc
  | acc, seq :: rest =>
      match liftSeq acc seq with
      | .error e => .error e
      | .ok acc2 => liftSeqs acc2 rest

/-- Modelled from the spec (section 4.5): the driver's work on one
computation — skip it when it is an already-lifted sub-computation, when it
is in the processed set, or when its thread tag does not meet the filter
(empty filter = all); otherwise collect the qualifying runs and lift each in
order. -/
def processComputation (config : CommandBufferConfig) (toolkit driver : Int)
    (minLen : Nat) (threads : List Nat)
    (acc : List Computation × PassState) (c : Computation) :
    Except String (List Computation × PassState) :=
  if c.isCommandBuffer = true ∨ c.id ∈ acc.2.processed ∨ ¬(threads = [] ∨ c.thread ∈ threads) then
    .ok (acc.1 ++ [c], acc.2)
  else
    match liftSeqs (c, acc.2)
        (CollectCommandBufferSequences c.schedule config toolkit driver acc.2.processed minLen) with
    | .error e => .error e
    | .ok cs => .ok (acc.1 ++ [cs.1], cs.2)

/-- The driver's fold over the module's computations, short-circuiting on
the first internal error. -/
def runFold (config : CommandBufferConfig) (toolkit driver : Int)
    (minLen : Nat) (threads : List Nat) :
    List Computation × PassState → List Computation →
    Except String (List Computation × PassState)
  | acc, [] => .ok acc
  | acc, c :: cs =>
      match processComputation config toolkit driver minLen threads acc c with
      | .error e => .error e
      | .ok acc2 => runFold config toolkit driver minLen threads acc2 cs

/-- Initial driver state of a `Run` invocation: nothing processed, nothing
changed, fresh computation ids above every existing one. -/
def initState (m : Module) : PassState :=
  { newComps := [], processed := [], changed := false,
    fresh := (m.computations.map (·.id)).foldr max 0 + 1 }

/-- Modelled from the spec: `CommandBufferScheduling::Run` (declared at
command_buffer_scheduling.h lines 86-88; body not in the repository).
Processes every computation under the execution-thread filter, accumulating
the rewritten computations and the created sub-computations; fails fast with
the first internal error (in which case no module value is returned);
otherwise returns the new module and the changed flag. -/
def Run (config : CommandBufferConfig) (toolkit driver : Int) (minLen : Nat)
    (m : Module) (execution_threads : List Nat) : Except String (Module × Bool) :=
  match runFold config toolkit driver minLen execution_threads ([], initState m) m.computations with
  | .error e => .error e
  | .ok acc => .ok ({ computations := acc.1 ++ acc.2.newComps }, acc.2.changed)

end Sched

namespace Examples

/-- Example config: op-kind tags 10, 2 and 5 enabled; tag 5 carries a
minimum (toolkit, driver) version requirement of (12, 12). -/
def exCfg : Sched.CommandBufferConfig :=
  { enabledTags := [10, 2, 5],
    requirement := fun t => if t = 5 then some (12, 12) else none }

/-- Example node: parameter 0 of the example computation. -/
def exP0 : Sched.Instruction := { id := 0, tag := Sched.parameterTag }

/-- Example node: parameter 1 of the example computation. -/
def exP1 : Sched.Instruction := { id := 1, tag := Sched.parameterTag }

/-- Example node: an eligible binary op reading both parameters. -/
def exAdd : Sched.Instruction :=
  { id := 2, tag := 10, operands := [{ node := 0 }, { node := 1 }] }

/-- Example node: an eligible binary op reading the previous op and
parameter 0; the computation root. -/
def exMul : Sched.Instruction :=
  { id := 3, tag := 10, operands := [{ node := 2 }, { node := 0 }] }

/-- Example parent computation `[P0, P1, Add(P0,P1), Mul(Add,P0)]` with root
`Mul` (spec section 8, scenario A). -/
def exMain : Sched.Computation :=
  { id := 0, schedule := [exP0, exP1, exAdd, exMul], rootId := 3 }

/-- Example module owning the example computation. -/
def exModule : Sched.Module := { computations := [exMain] }

/-- The eligible run of the example computation. -/
def exSeq : List Sched.Instruction := [exAdd, exMul]

/-- The command buffer prepared from the example run. -/
def exCB : Sched.CommandBuffer :=
  match Sched.prepareCommandBuffer 100 exMain exSeq with
  | .ok cb => cb
  | .error _ =>
      { arguments := [], results := [],
        computation := { id := 0, schedule := [], rootId := 0 }, instMapping := [] }

/-- An empty module. -/
def emptyModule : Sched.Module := { computations := [] }

/-- A computation carrying the already-lifted marker. -/
def exMarked : Sched.Computation :=
  { id := 7, schedule := [], rootId := 0, isCommandBuffer := true }

/-- An eligible call node targeting computation 9. -/
def exCallInst : Sched.Instruction := { id := 4, tag := 10, callTarget := some 9 }

/-- Example result metadata: one F32 vector of two elements with dense
strides. -/
def exResultF32 : Callback.ResultSpec :=
  { type := .F32, expected_dims := [2], expected_strides := [4],
    reversed_layout := [0], size_in_bytes := 8 }

/-- Example result metadata for a TOKEN result. -/
def exResultTok : Callback.ResultSpec :=
  { type := .TOKEN, expected_dims := [], expected_strides := [1],
    reversed_layout := [], size_in_bytes := 0 }

/-- Example callback state: one TOKEN argument, one F32 argument, one F32
result. -/
def exCpuCallback : Callback.CpuCallback :=
  { args := [{ type := .TOKEN, dims := [], strides := [] },
             { type := .F32, dims := [2], strides := [4] }],
    results := [exResultF32] }

/-- A callable that returns a non-tuple object. -/
def exBadCallable : Callback.Callable := fun _ => .ok (.pyOther "3")

/-- A callable that returns a one-element tuple holding a dense F32 array of
two elements. -/
def exGoodCallable : Callback.Callable :=
  fun _ => .ok (.pyTuple [.pyArray [2] [4] [1, 2, 3, 4, 5, 6, 7, 8]])

end Examples



/-! ## Theorems -/

/-- Absorbing a prefix of the first gap out of a riffle. -/
theorem riffle_absorb (x g : List Sched.Instruction)
    (gaps runs : List (List Sched.Instruction)) :
    Sched.riffle ((x ++ g) :: gaps) runs = x ++ Sched.riffle (g :: gaps) runs := by
  cases runs with
  | nil => simp [Sched.riffle]
  | cons r rs => simp [Sched.riffle, List.append_assoc]

/-- The collector scan reassembles its input from gaps and emitted runs. -/
theorem collectGo_structure (elig : Sched.Instruction → Bool) (minLen : Nat) :
    ∀ (s cur : List Sched.Instruction),
      ∃ gaps, gaps.length = (Sched.collectGo elig minLen cur s).length + 1 ∧
        cur ++ s = Sched.riffle gaps (Sched.collectGo elig minLen cur s) := by
  intro s
  induction s with
  | nil =>
      intro cur
      by_cases h : minLen ≤ cur.length
      · exact ⟨[[], []], by simp [Sched.collectGo, h, Sched.riffle]⟩
      · exact ⟨[cur], by simp [Sched.collectGo, h, Sched.riffle]⟩
  | cons a rest ih =>
      intro cur
      by_cases he : elig a = true
      · obtain ⟨gaps, hlen, heq⟩ := ih (cur ++ [a])
        have hc : Sched.collectGo elig minLen cur (a :: rest) =
            Sched.collectGo elig minLen (cur ++ [a]) rest := by
          simp [Sched.collectGo, he]
        refine ⟨gaps, ?_, ?_⟩
        · rw [hc]; exact hlen
        · rw [hc]
          simpa [List.append_assoc] using heq
      · obtain ⟨gaps, hlen, heq⟩ := ih []
        simp only [List.nil_append] at heq
        cases gaps with
        | nil => simp at hlen
        | cons g0 gs =>
            by_cases hm : minLen ≤ cur.length
            · have hc : Sched.collectGo elig minLen cur (a :: rest) =
                  cur :: Sched.collectGo elig minLen [] rest := by
                simp [Sched.collectGo, he, hm]
              refine ⟨[] :: (a :: g0) :: gs, ?_, ?_⟩
              · rw [hc]; simpa using hlen
              · rw [hc]
                have habs : Sched.riffle ((a :: g0) :: gs)
                    (Sched.collectGo elig minLen [] rest) =
                    a :: Sched.riffle (g0 :: gs) (Sched.collectGo elig minLen [] rest) := by
                  simpa using riffle_absorb [a] g0 gs (Sched.collectGo elig minLen [] rest)
                show cur ++ a :: rest =
                  [] ++ (cur ++ Sched.riffle ((a :: g0) :: gs)
                    (Sched.collectGo elig minLen [] rest))
                rw [habs, ← heq]
                simp
            · have hc : Sched.collectGo elig minLen cur (a :: rest) =
                  Sched.collectGo elig minLen [] rest := by
                simp [Sched.collectGo, he, hm]
              refine ⟨(cur ++ a :: g0) :: gs, ?_, ?_⟩
              · rw [hc]; simpa using hlen
              · rw [hc]
                have habs := riffle_absorb (cur ++ [a]) g0 gs
                  (Sched.collectGo elig minLen [] rest)
                have hg : (cur ++ a :: g0) = (cur ++ [a]) ++ g0 := by simp
                rw [hg, habs, ← heq]
                simp

/-- Every run emitted by the collector scan meets the length threshold. -/
theorem collectGo_minLen (elig : Sched.Instruction → Bool) (minLen : Nat) :
    ∀ (s cur r : List Sched.Instruction),
      r ∈ Sched.collectGo elig minLen cur s → minLen ≤ r.length := by
  intro s
  induction s with
  | nil =>
      intro cur r hr
      by_cases h : minLen ≤ cur.length
      · have hc : Sched.collectGo elig minLen cur [] = [cur] := by
          simp [Sched.collectGo, h]
        rw [hc] at hr
        rw [List.mem_singleton.mp hr]
        exact h
      · have hc : Sched.collectGo elig minLen cur [] = [] := by
          simp [Sched.collectGo, h]
        rw [hc] at hr
        simp at hr
  | cons a rest ih =>
      intro cur r hr
      by_cases he : elig a = true
      · have hc : Sched.collectGo elig minLen cur (a :: rest) =
            Sched.collectGo elig minLen (cur ++ [a]) rest := by
          simp [Sched.collectGo, he]
        rw [hc] at hr
        exact ih _ _ hr
      · by_cases hm : minLen ≤ cur.length
        · have hc : Sched.collectGo elig minLen cur (a :: rest) =
              cur :: Sched.collectGo elig minLen [] rest := by
            simp [Sched.collectGo, he, hm]
          rw [hc] at hr
          rcases List.mem_cons.mp hr with rfl | h
          · exact hm
          · exact ih _ _ h
        · have hc : Sched.collectGo elig minLen cur (a :: rest) =
              Sched.collectGo elig minLen [] rest := by
            simp [Sched.collectGo, he, hm]
          rw [hc] at hr
          exact ih _ _ hr

/-- Every node of a run emitted by the collector scan was accumulated while
its eligibility test held. -/
theorem collectGo_eligible (elig : Sched.Instruction → Bool) (minLen : Nat) :
    ∀ (s cur r : List Sched.Instruction) (i : Sched.Instruction),
      r ∈ Sched.collectGo elig minLen cur s → i ∈ r → i ∈ cur ∨ elig i = true := by
  intro s
  induction s with
  | nil =>
      intro cur r i hr hi
      by_cases h : minLen ≤ cur.length
      · have hc : Sched.collectGo elig minLen cur [] = [cur] := by
          simp [Sched.collectGo, h]
        rw [hc] at hr
        rw [List.mem_singleton.mp hr] at hi
        exact Or.inl hi
      · have hc : Sched.collectGo elig minLen cur [] = [] := by
          simp [Sched.collectGo, h]
        rw [hc] at hr
        simp at hr
  | cons a rest ih =>
      intro cur r i hr hi
      by_cases he : elig a = true
      · have hc : Sched.collectGo elig minLen cur (a :: rest) =
            Sched.collectGo elig minLen (cur ++ [a]) rest := by
          simp [Sched.collectGo, he]
        rw [hc] at hr
        rcases ih _ _ i hr hi with h | h
        · rcases List.mem_append.mp h with h2 | h2
          · exact Or.inl h2
          · rw [List.mem_singleton.mp h2]
            exact Or.inr he
        · exact Or.inr h
      · by_cases hm : minLen ≤ cur.length
        · have hc : Sched.collectGo elig minLen cur (a :: rest) =
              cur :: Sched.collectGo elig minLen [] rest := by
            simp [Sched.collectGo, he, hm]
          rw [hc] at hr
          rcases List.mem_cons.mp hr with rfl | h
          · exact Or.inl hi
          · rcases ih _ _ i h hi with h2 | h2
            · simp at h2
            · exact Or.inr h2
        · have hc : Sched.collectGo elig minLen cur (a :: rest) =
              Sched.collectGo elig minLen [] rest := by
            simp [Sched.collectGo, he, hm]
          rw [hc] at hr
          rcases ih _ _ i hr hi with h2 | h2
          · simp at h2
          · exact Or.inr h2

/-- C2: for every instruction schedule, every config, toolkit/driver version
pair, processed set and `min_num_commands` value, the runs emitted by
`CollectCommandBufferSequences` are pairwise disjoint, contiguous
sub-sequences of the input schedule appearing in source order (witnessed by
a gap/run interleaving that reassembles the schedule), and every emitted run
has length at least `min_num_commands`. -/
theorem collect_command_buffer_sequences_spec
    (inst_sequence : List Sched.Instruction) (config : Sched.CommandBufferConfig)
    (toolkit driver : Int) (processed : List Nat) (min_num_commands : Nat) :
    (∀ r ∈ Sched.CollectCommandBufferSequences inst_sequence config toolkit driver
        processed min_num_commands, min_num_commands ≤ r.length) ∧
    ∃ gaps, gaps.length = (Sched.CollectCommandBufferSequences inst_sequence config
        toolkit driver processed min_num_commands).length + 1 ∧
      inst_sequence = Sched.riffle gaps (Sched.CollectCommandBufferSequences inst_sequence
        config toolkit driver processed min_num_commands) := by
  constructor
  · intro r hr
    exact collectGo_minLen _ _ _ _ r hr
  · simpa [Sched.CollectCommandBufferSequences] using
      collectGo_structure (Sched.nodeEligible config toolkit driver processed)
        min_num_commands inst_sequence []

/-- Witness for C2: the example schedule's single emitted run meets the
threshold. -/
theorem collect_command_buffer_sequences_spec_witness :
    1 ≤ ([Examples.exAdd, Examples.exMul] : List Sched.Instruction).length :=
  (collect_command_buffer_sequences_spec Examples.exMain.schedule Examples.exCfg
      12 12 [] 1).1 [Examples.exAdd, Examples.exMul] (by decide)

/-- C6: an op kind is eligible iff its tag is in the config set and either
it has no version requirement or both the toolkit and the driver version
meet the declared minimum; in particular a kind whose minimum driver version
exceeds the pass's configured driver version is ineligible even when its tag
is present in the config set. -/
theorem is_eligible_spec :
    (∀ (tag : Nat) (config : Sched.CommandBufferConfig) (toolkit driver : Int),
        Sched.IsEligible tag config toolkit driver = true ↔
          (tag ∈ config.enabledTags ∧
            (config.requirement tag = none ∨
              ∃ mt md, config.requirement tag = some (mt, md) ∧
                mt ≤ toolkit ∧ md ≤ driver))) ∧
    (∀ (tag : Nat) (config : Sched.CommandBufferConfig) (toolkit driver mt md : Int),
        config.requirement tag = some (mt, md) → driver < md →
        Sched.IsEligible tag config toolkit driver = false) := by
  constructor
  · intro tag config toolkit driver
    cases h : config.requirement tag with
    | none => simp [Sched.IsEligible, h]
    | some mv =>
        obtain ⟨mt, md⟩ := mv
        simp only [Sched.IsEligible, h, Bool.and_eq_true, decide_eq_true_eq,
          Option.some.injEq, Prod.mk.injEq, reduceCtorEq, false_or]
        constructor
        · rintro ⟨h1, h2, h3⟩
          exact ⟨h1, mt, md, ⟨rfl, rfl⟩, h2, h3⟩
        · rintro ⟨h1, mt2, md2, ⟨rfl, rfl⟩, h3, h4⟩
          exact ⟨h1, h3, h4⟩
  · intro tag config toolkit driver mt md hreq hlt
    have hnot : ¬ md ≤ driver := not_le.mpr hlt
    simp [Sched.IsEligible, hreq, hnot]

/-- Witness for C6: tag 5 is in the example config set but requires driver
version 12, so with driver version 3 it is ineligible. -/
theorem is_eligible_spec_witness :
    Sched.IsEligible 5 Examples.exCfg 12 3 = false :=
  is_eligible_spec.2 5 Examples.exCfg 12 3 12 12 rfl (by decide)

/-- Membership in first-occurrence de-duplication with a seen set. -/
theorem mem_dedupFirstAux : ∀ (l seen : List Nat) (a : Nat),
    a ∈ Sched.dedupFirstAux seen l ↔ (a ∈ l ∧ a ∉ seen) := by
  intro l
  induction l with
  | nil => intro seen a; simp [Sched.dedupFirstAux]
  | cons b l ih =>
      intro seen a
      by_cases hb : b ∈ seen
      · simp only [Sched.dedupFirstAux, if_pos hb]
        rw [ih]
        constructor
        · rintro ⟨h1, h2⟩
          exact ⟨List.mem_cons_of_mem _ h1, h2⟩
        · rintro ⟨h1, h2⟩
          rcases List.mem_cons.mp h1 with rfl | h1
          · exact absurd hb h2
          · exact ⟨h1, h2⟩
      · simp only [Sched.dedupFirstAux, if_neg hb]
        constructor
        · intro h
          rcases List.mem_cons.mp h with rfl | h
          · exact ⟨List.mem_cons_self _ _, hb⟩
          · rw [ih] at h
            refine ⟨List.mem_cons_of_mem _ h.1, ?_⟩
            intro hseen
            exact h.2 (List.mem_append_left _ hseen)
        · rintro ⟨h1, h2⟩
          rcases List.mem_cons.mp h1 with rfl | h1
          · exact List.mem_cons_self _ _
          · by_cases hab : a = b
            · subst hab
              exact List.mem_cons_self _ _
            · apply List.mem_cons_of_mem
              rw [ih]
              refine ⟨h1, ?_⟩
              intro hmem
              rcases List.mem_append.mp hmem with h3 | h3
              · exact h2 h3
              · exact hab (List.mem_singleton.mp h3)

/-- De-duplication preserves membership. -/
theorem mem_dedupFirst (l : List Nat) (a : Nat) :
    a ∈ Sched.dedupFirst l ↔ a ∈ l := by
  simp [Sched.dedupFirst, mem_dedupFirstAux]

/-- Characterization of the external-operand list of a run. -/
theorem mem_firstUses (seq : List Sched.Instruction) (a : Nat) :
    a ∈ Sched.firstUses seq ↔
      (a ∉ Sched.runIds seq ∧ ∃ i ∈ seq, ∃ r ∈ i.operands, r.node = a) := by
  simp only [Sched.firstUses, List.mem_filter, List.mem_flatten, List.mem_map,
    decide_eq_true_eq]
  constructor
  · rintro ⟨⟨l, ⟨i, hi, rfl⟩, hal⟩, hout⟩
    rcases List.mem_map.mp hal with ⟨r, hr, rfl⟩
    exact ⟨hout, i, hi, r, hr, rfl⟩
  · rintro ⟨hout, i, hi, r, hr, rfl⟩
    exact ⟨⟨i.operands.map (·.node), ⟨i, hi, rfl⟩, List.mem_map_of_mem _ hr⟩, hout⟩

/-- Boolean-to-propositional bridge for `hasExternalUser`. -/
theorem hasExternalUser_iff (P : Sched.Computation) (seq : List Sched.Instruction)
    (n : Nat) :
    Sched.hasExternalUser P seq n = true ↔
      ∃ u ∈ P.schedule, u.id ∉ Sched.runIds seq ∧ ∃ r ∈ u.operands, r.node = n := by
  simp [Sched.hasExternalUser, List.any_eq_true]

/-- Characterization of the result list of a run. -/
theorem mem_resultIds (P : Sched.Computation) (seq : List Sched.Instruction) (n : Nat) :
    n ∈ Sched.resultIds P seq ↔
      ∃ i ∈ seq, i.id = n ∧ (n = P.rootId ∨ ∃ u ∈ P.schedule,
        u.id ∉ Sched.runIds seq ∧ ∃ r ∈ u.operands, r.node = n) := by
  constructor
  · intro h
    rcases List.mem_map.mp h with ⟨i, hi, rfl⟩
    rcases List.mem_filter.mp hi with ⟨hiseq, hpred⟩
    refine ⟨i, hiseq, rfl, ?_⟩
    have hpred2 : i.id = P.rootId ∨ Sched.hasExternalUser P seq i.id = true := by
      simpa using hpred
    rcases hpred2 with h2 | h2
    · exact Or.inl h2
    · exact Or.inr ((hasExternalUser_iff P seq i.id).mp h2)
  · rintro ⟨i, hiseq, rfl, hor⟩
    apply List.mem_map_of_mem
    apply List.mem_filter.mpr
    refine ⟨hiseq, ?_⟩
    rcases hor with h2 | h2
    · simp [h2]
    · simp [(hasExternalUser_iff P seq i.id).mpr h2]

/-- Inversion of a successful `prepareCommandBuffer`. -/
theorem prepare_ok_inv (subId : Nat) (P : Sched.Computation)
    (seq : List Sched.Instruction) (cb : Sched.CommandBuffer)
    (h : Sched.prepareCommandBuffer subId P seq = .ok cb) :
    cb.arguments = Sched.dedupFirst (Sched.firstUses seq) ∧
    cb.results = Sched.resultIds P seq ∧
    cb.computation = Sched.prepBody subId P seq := by
  by_cases hn : (Sched.runIds seq).Nodup
  · simp only [Sched.prepareCommandBuffer, if_pos hn, Except.ok.injEq] at h
    subst h
    exact ⟨rfl, rfl, rfl⟩
  · simp [Sched.prepareCommandBuffer, if_neg hn] at h

/-- The parameter prefix of the prepared body. -/
theorem prepBody_params (subId : Nat) (P : Sched.Computation)
    (seq : List Sched.Instruction) (k : Nat)
    (hk : k < (Sched.dedupFirst (Sched.firstUses seq)).length) :
    (Sched.prepBody subId P seq).schedule[k]? =
      some { id := Sched.maxIdIn P + 1 + k, tag := Sched.parameterTag,
             callTarget := none, operands := [] } := by
  have hplen : (Sched.prepParams (Sched.maxIdIn P + 1)
      (Sched.dedupFirst (Sched.firstUses seq)).length).length =
      (Sched.dedupFirst (Sched.firstUses seq)).length := by
    simp [Sched.prepParams]
  have hpk : (Sched.prepParams (Sched.maxIdIn P + 1)
      (Sched.dedupFirst (Sched.firstUses seq)).length)[k]? =
      some { id := Sched.maxIdIn P + 1 + k, tag := Sched.parameterTag,
             callTarget := none, operands := [] } := by
    simp [Sched.prepParams, List.getElem?_map, List.getElem?_range, hk]
  unfold Sched.prepBody
  cases hres : Sched.resultIds P seq with
  | nil =>
      dsimp only
      rw [List.append_assoc, List.getElem?_append_left (by rw [hplen]; exact hk)]
      exact hpk
  | cons r rs =>
      cases rs with
      | nil =>
          dsimp only
          rw [List.getElem?_append_left (by rw [hplen]; exact hk)]
          exact hpk
      | cons r2 rs2 =>
          dsimp only
          rw [List.append_assoc, List.getElem?_append_left (by rw [hplen]; exact hk)]
          exact hpk

/-- The root convention of the prepared body. -/
theorem prepBody_root (subId : Nat) (P : Sched.Computation)
    (seq : List Sched.Instruction) :
    (∀ r, Sched.resultIds P seq = [r] → (Sched.prepBody subId P seq).rootId = r) ∧
    ((Sched.resultIds P seq).length ≠ 1 →
      ∃ t ∈ (Sched.prepBody subId P seq).schedule,
        (Sched.prepBody subId P seq).rootId = t.id ∧ t.tag = Sched.tupleTag ∧
        t.operands = (Sched.resultIds P seq).map (fun n => { node := n, elem := none })) := by
  constructor
  · intro r hres
    unfold Sched.prepBody
    rw [hres]
  · intro hlen
    unfold Sched.prepBody
    cases hres : Sched.resultIds P seq with
    | nil =>
        refine ⟨_, List.mem_append_right _ (List.mem_singleton.mpr rfl), rfl, rfl, by simp⟩
    | cons r rs =>
        cases rs with
        | nil => rw [hres] at hlen; simp at hlen
        | cons r2 rs2 =>
            refine ⟨_, List.mem_append_right _ (List.mem_singleton.mpr rfl), rfl, rfl, by simp⟩

/-- C3: for every run prepared successfully by `prepareCommandBuffer`, every
argument of the command buffer is defined outside the run and used by it
(external values become parameters of the sub-computation, which carries one
parameter node per argument at the front of its schedule — and conversely
every external operand of the run is captured as an argument); every result
is a run node that is the parent's root or has a user outside the run; and
the sub-computation's root is the single result directly when there is
exactly one result, or a synthesized tuple over all results in run order
otherwise. -/
theorem prepare_command_buffer_spec (subId : Nat) (P : Sched.Computation)
    (seq : List Sched.Instruction) (cb : Sched.CommandBuffer)
    (h : Sched.prepareCommandBuffer subId P seq = .ok cb) :
    (∀ a ∈ cb.arguments, a ∉ Sched.runIds seq ∧
        ∃ i ∈ seq, ∃ r ∈ i.operands, r.node = a) ∧
    (∀ i ∈ seq, ∀ r ∈ i.operands, r.node ∉ Sched.runIds seq → r.node ∈ cb.arguments) ∧
    (∀ n ∈ cb.results, n ∈ Sched.runIds seq ∧
        (n = P.rootId ∨ ∃ u ∈ P.schedule, u.id ∉ Sched.runIds seq ∧
          ∃ r ∈ u.operands, r.node = n)) ∧
    (∀ k < cb.arguments.length, ∃ p, cb.computation.schedule[k]? = some p ∧
        p.tag = Sched.parameterTag ∧ p.operands = []) ∧
    (∀ r, cb.results = [r] → cb.computation.rootId = r) ∧
    (cb.results.length ≠ 1 →
      ∃ t ∈ cb.computation.schedule, cb.computation.rootId = t.id ∧
        t.tag = Sched.tupleTag ∧
        t.operands = cb.results.map (fun n => { node := n, elem := none })) := by
  obtain ⟨hargs, hres, hcomp⟩ := prepare_ok_inv subId P seq cb h
  refine ⟨?_, ?_, ?_, ?_, ?_, ?_⟩
  · intro a ha
    rw [hargs, mem_dedupFirst, mem_firstUses] at ha
    exact ha
  · intro i hi r hr hout
    rw [hargs, mem_dedupFirst, mem_firstUses]
    exact ⟨hout, i, hi, r, hr, rfl⟩
  · intro n hn
    rw [hres, mem_resultIds] at hn
    rcases hn with ⟨i, hi, rfl, hor⟩
    exact ⟨List.mem_map_of_mem _ hi, hor⟩
  · intro k hk
    rw [hargs] at hk
    rw [hcomp]
    exact ⟨_, prepBody_params subId P seq k hk, rfl, rfl⟩
  · intro r hr
    rw [hres] at hr
    rw [hcomp]
    exact (prepBody_root subId P seq).1 r hr
  · intro hlen
    rw [hres] at hlen
    rw [hcomp, hres]
    exact (prepBody_root subId P seq).2 hlen

/-- Witness for C3: in the example run, node 0 is an external argument. -/
theorem prepare_command_buffer_spec_witness :
    (0 ∉ Sched.runIds Examples.exSeq ∧
      ∃ i ∈ Examples.exSeq, ∃ r ∈ i.operands, r.node = 0) :=
  (prepare_command_buffer_spec 100 Examples.exMain Examples.exSeq Examples.exCB
      rfl).1 0 (by decide)

/-- The splice walks past a prefix of nodes outside the run, rewiring them. -/
theorem spliceCall_append_disjoint (rids : List Nat) (c : Sched.Instruction)
    (rw : Sched.Instruction → Sched.Instruction) :
    ∀ (pre rest : List Sched.Instruction), (∀ i ∈ pre, i.id ∉ rids) →
      Sched.spliceCall rids c rw (pre ++ rest) =
        pre.map rw ++ Sched.spliceCall rids c rw rest := by
  intro pre
  induction pre with
  | nil => intro rest _; simp
  | cons i pre ih =>
      intro rest hdis
      have hid : i.id ∉ rids := hdis i (List.mem_cons_self _ _)
      have hc : Sched.spliceCall rids c rw ((i :: pre) ++ rest) =
          rw i :: Sched.spliceCall rids c rw (pre ++ rest) := by
        simp [Sched.spliceCall, hid]
      rw [hc, ih rest (fun j hj => hdis j (List.mem_cons_of_mem _ hj))]
      simp

/-- The splice replaces the run from its first node on. -/
theorem spliceCall_head (rids : List Nat) (c : Sched.Instruction)
    (rw : Sched.Instruction → Sched.Instruction) (s0 : Sched.Instruction)
    (tail : List Sched.Instruction) (h : s0.id ∈ rids) :
    Sched.spliceCall rids c rw (s0 :: tail) =
      c :: (tail.filter (fun j => decide (j.id ∉ rids))).map rw := by
  simp [Sched.spliceCall, h]

/-- C1: for every eligible run (a contiguous segment of the parent schedule,
with node identities distinct), the rewritten parent's node count equals the
old count minus (run length - 1); the new schedule is exactly the old one
with the run replaced by the single call node and every surviving node
rewired; every external user reads, at each operand position, the call
node's output for a run result (direct for a single result, an indexed
extraction at the result's run position otherwise) and its other operands
unchanged; and the call node becomes the new root exactly when the run
contained the parent's former root. -/
theorem rewrite_command_buffer_spec (callId : Nat) (parent : Sched.Computation)
    (seq : List Sched.Instruction) (cb : Sched.CommandBuffer)
    (pre post : List Sched.Instruction)
    (hsplit : parent.schedule = pre ++ seq ++ post)
    (hnodup : (parent.schedule.map (·.id)).Nodup)
    (hne : seq ≠ []) :
    (Sched.rewriteCommandBuffer callId parent seq cb).schedule.length + seq.length =
      parent.schedule.length + 1 ∧
    (Sched.rewriteCommandBuffer callId parent seq cb).schedule =
      pre.map (Sched.rewireInst callId cb.results) ++
        Sched.makeCallInstruction callId cb ::
          post.map (Sched.rewireInst callId cb.results) ∧
    (∀ u ∈ pre ++ post, ∀ k : Nat,
        (Sched.rewireInst callId cb.results u).operands[k]? =
          (u.operands[k]?).map (Sched.callOutputRef callId cb.results)) ∧
    (∀ r : Sched.Ref, r.node ∈ cb.results →
        Sched.callOutputRef callId cb.results r =
          (match cb.results with
           | [_] => { node := callId, elem := none }
           | _ => { node := callId, elem := some (cb.results.indexOf r.node) })) ∧
    (∀ r : Sched.Ref, r.node ∉ cb.results →
        Sched.callOutputRef callId cb.results r = r) ∧
    (parent.rootId ∈ Sched.runIds seq →
        (Sched.rewriteCommandBuffer callId parent seq cb).rootId = callId) ∧
    (parent.rootId ∉ Sched.runIds seq →
        (Sched.rewriteCommandBuffer callId parent seq cb).rootId = parent.rootId) := by
  obtain ⟨s0, stail, rfl⟩ : ∃ s0 stail, seq = s0 :: stail := by
    cases seq with
    | nil => exact absurd rfl hne
    | cons s0 stail => exact ⟨s0, stail, rfl⟩
  have hnd := hnodup
  rw [hsplit] at hnd
  simp only [List.map_append, List.nodup_append] at hnd
  obtain ⟨⟨_, _, hdis_pre_seq⟩, _, hdis_preseq_post⟩ := hnd
  have hpre_dis : ∀ i ∈ pre, i.id ∉ Sched.runIds (s0 :: stail) := by
    intro i hi hmem
    exact hdis_pre_seq (List.mem_map_of_mem _ hi) hmem
  have hpost_dis : ∀ j ∈ post, j.id ∉ Sched.runIds (s0 :: stail) := by
    intro j hj hmem
    exact hdis_preseq_post (List.mem_append_right _ hmem) (List.mem_map_of_mem _ hj)
  have hs0 : s0.id ∈ Sched.runIds (s0 :: stail) := List.mem_cons_self _ _
  have hstail : ∀ j ∈ stail, j.id ∈ Sched.runIds (s0 :: stail) := by
    intro j hj
    exact List.mem_map_of_mem _ (List.mem_cons_of_mem _ hj)
  have hfilter : (stail ++ post).filter
      (fun j => decide (j.id ∉ Sched.runIds (s0 :: stail))) = post := by
    rw [List.filter_append]
    have h1 : stail.filter (fun j => decide (j.id ∉ Sched.runIds (s0 :: stail))) = [] := by
      apply List.filter_eq_nil_iff.mpr
      intro j hj
      simp [hstail j hj]
    have h2 : post.filter (fun j => decide (j.id ∉ Sched.runIds (s0 :: stail))) = post := by
      apply List.filter_eq_self.mpr
      intro j hj
      simp [hpost_dis j hj]
    rw [h1, h2, List.nil_append]
  have hsched : (Sched.rewriteCommandBuffer callId parent (s0 :: stail) cb).schedule =
      pre.map (Sched.rewireInst callId cb.results) ++
        Sched.makeCallInstruction callId cb ::
          post.map (Sched.rewireInst callId cb.results) := by
    show Sched.spliceCall (Sched.runIds (s0 :: stail))
        (Sched.makeCallInstruction callId cb)
        (Sched.rewireInst callId cb.results) parent.schedule = _
    rw [hsplit, List.append_assoc,
      spliceCall_append_disjoint _ _ _ pre ((s0 :: stail) ++ post) hpre_dis]
    have hrest : Sched.spliceCall (Sched.runIds (s0 :: stail))
        (Sched.makeCallInstruction callId cb)
        (Sched.rewireInst callId cb.results) ((s0 :: stail) ++ post) =
        Sched.makeCallInstruction callId cb ::
          post.map (Sched.rewireInst callId cb.results) := by
      have : (s0 :: stail) ++ post = s0 :: (stail ++ post) := by simp
      rw [this, spliceCall_head _ _ _ s0 (stail ++ post) hs0, hfilter]
    rw [hrest]
  refine ⟨?_, hsched, ?_, ?_, ?_, ?_, ?_⟩
  · rw [hsched, hsplit]
    simp
    omega
  · intro u _ k
    simp [Sched.rewireInst, List.getElem?_map]
  · intro r hr
    simp [Sched.callOutputRef, hr]
  · intro r hr
    simp [Sched.callOutputRef, hr]
  · intro hroot
    simp [Sched.rewriteCommandBuffer, hroot]
  · intro hroot
    simp [Sched.rewriteCommandBuffer, hroot]

/-- Witness for C1: rewriting the example run shrinks the example schedule
from 4 nodes to 3. -/
theorem rewrite_command_buffer_spec_witness :
    (Sched.rewriteCommandBuffer 9 Examples.exMain Examples.exSeq Examples.exCB).schedule.length
        + Examples.exSeq.length = Examples.exMain.schedule.length + 1 :=
  (rewrite_command_buffer_spec 9 Examples.exMain Examples.exSeq Examples.exCB
      [Examples.exP0, Examples.exP1] [] rfl (by decide) (by decide)).1

/-- The prepared body always carries the re-entry guard marker. -/
theorem prepBody_marked (subId : Nat) (P : Sched.Computation)
    (seq : List Sched.Instruction) :
    (Sched.prepBody subId P seq).isCommandBuffer = true := by
  unfold Sched.prepBody
  cases hres : Sched.resultIds P seq with
  | nil => rfl
  | cons r rs =>
      cases rs with
      | nil => rfl
      | cons r2 rs2 => rfl

/-- Inversion of a successful `liftSeq`. -/
theorem liftSeq_ok_inv (acc : Sched.Computation × Sched.PassState)
    (seq : List Sched.Instruction) (acc2 : Sched.Computation × Sched.PassState)
    (h : Sched.liftSeq acc seq = .ok acc2) :
    ∃ cb, Sched.prepareCommandBuffer acc.2.fresh acc.1
        (acc.1.schedule.filter (fun i => decide (i.id ∈ Sched.runIds seq))) = .ok cb ∧
      acc2 = (Sched.rewriteCommandBuffer (Sched.maxIdIn acc.1 + 1) acc.1
          (acc.1.schedule.filter (fun i => decide (i.id ∈ Sched.runIds seq))) cb,
        { newComps := acc.2.newComps ++ [cb.computation],
          processed := acc.2.processed ++ [cb.computation.id],
          changed := true, fresh := acc.2.fresh + 1 }) := by
  unfold Sched.liftSeq at h
  dsimp only at h
  cases hp : Sched.prepareCommandBuffer acc.2.fresh acc.1
      (acc.1.schedule.filter (fun i => decide (i.id ∈ Sched.runIds seq))) with
  | error e => rw [hp] at h; exact absurd h (by simp)
  | ok cb =>
      rw [hp] at h
      simp only [Except.ok.injEq] at h
      exact ⟨cb, rfl, h.symm⟩

/-- After a lift, the invocation is marked changed, the new sub-computation
list is nonempty and all its members carry the guard marker, and the
processed set has only grown. -/
theorem liftSeq_state (acc : Sched.Computation × Sched.PassState)
    (seq : List Sched.Instruction) (acc2 : Sched.Computation × Sched.PassState)
    (h : Sched.liftSeq acc seq = .ok acc2) :
    acc2.2.changed = true ∧ acc2.2.newComps ≠ [] ∧
    acc.2.processed <+: acc2.2.processed ∧
    ((∀ c ∈ acc.2.newComps, c.isCommandBuffer = true) →
      ∀ c ∈ acc2.2.newComps, c.isCommandBuffer = true) := by
  obtain ⟨cb, hp, rfl⟩ := liftSeq_ok_inv acc seq acc2 h
  obtain ⟨_, _, hcomp⟩ := prepare_ok_inv _ _ _ _ hp
  refine ⟨rfl, by simp, List.prefix_append _ _, ?_⟩
  intro hall c hc
  rcases List.mem_append.mp hc with h2 | h2
  · exact hall c h2
  · rw [List.mem_singleton.mp h2, hcomp]
    exact prepBody_marked _ _ _

/-- `liftSeqs` preserves the driver-state invariants. -/
theorem liftSeqs_state : ∀ (seqs : List (List Sched.Instruction))
    (acc acc2 : Sched.Computation × Sched.PassState),
    Sched.liftSeqs acc seqs = .ok acc2 →
    ((acc.2.changed = true ↔ acc.2.newComps ≠ []) →
      (acc2.2.changed = true ↔ acc2.2.newComps ≠ [])) ∧
    acc.2.processed <+: acc2.2.processed ∧
    ((∀ c ∈ acc.2.newComps, c.isCommandBuffer = true) →
      ∀ c ∈ acc2.2.newComps, c.isCommandBuffer = true) := by
  intro seqs
  induction seqs with
  | nil =>
      intro acc acc2 h
      simp only [Sched.liftSeqs, Except.ok.injEq] at h
      subst h
      exact ⟨fun hi => hi, List.prefix_refl _, fun hi => hi⟩
  | cons seq rest ih =>
      intro acc acc2 h
      simp only [Sched.liftSeqs] at h
      cases hl : Sched.liftSeq acc seq with
      | error e => rw [hl] at h; exact absurd h (by simp)
      | ok acc1 =>
          rw [hl] at h
          obtain ⟨hch, hne, hpf, hmark⟩ := liftSeq_state acc seq acc1 hl
          obtain ⟨ih1, ih2, ih3⟩ := ih acc1 acc2 h
          refine ⟨?_, hpf.trans ih2, fun hall => ih3 (hmark hall)⟩
          intro _
          exact ih1 (by simp [hch, hne])

/-- `processComputation` preserves the driver-state invariants. -/
theorem processComputation_state (config : Sched.CommandBufferConfig)
    (toolkit driver : Int) (minLen : Nat) (threads : List Nat)
    (acc acc2 : List Sched.Computation × Sched.PassState) (c : Sched.Computation)
    (h : Sched.processComputation config toolkit driver minLen threads acc c = .ok acc2) :
    ((acc.2.changed = true ↔ acc.2.newComps ≠ []) →
      (acc2.2.changed = true ↔ acc2.2.newComps ≠ [])) ∧
    acc.2.processed <+: acc2.2.processed ∧
    ((∀ d ∈ acc.2.newComps, d.isCommandBuffer = true) →
      ∀ d ∈ acc2.2.newComps, d.isCommandBuffer = true) ∧
    acc.1 <+: acc2.1 := by
  unfold Sched.processComputation at h
  by_cases hskip : c.isCommandBuffer = true ∨ c.id ∈ acc.2.processed ∨
      ¬(threads = [] ∨ c.thread ∈ threads)
  · rw [if_pos hskip] at h
    simp only [Except.ok.injEq] at h
    subst h
    exact ⟨fun hi => hi, List.prefix_refl _, fun hi => hi, List.prefix_append _ _⟩
  · rw [if_neg hskip] at h
    cases hl : Sched.liftSeqs (c, acc.2) (Sched.CollectCommandBufferSequences c.schedule
        config toolkit driver acc.2.processed minLen) with
    | error e => rw [hl] at h; exact absurd h (by simp)
    | ok cs =>
        rw [hl] at h
        simp only [Except.ok.injEq] at h
        subst h
        obtain ⟨h1, h2, h3⟩ := liftSeqs_state _ (c, acc.2) cs hl
        exact ⟨h1, h2, h3, List.prefix_append _ _⟩

/-- The driver fold preserves the driver-state invariants. -/
theorem runFold_state (config : Sched.CommandBufferConfig) (toolkit driver : Int)
    (minLen : Nat) (threads : List Nat) :
    ∀ (cs : List Sched.Computation) (acc out : List Sched.Computation × Sched.PassState),
    Sched.runFold config toolkit driver minLen threads acc cs = .ok out →
    ((acc.2.changed = true ↔ acc.2.newComps ≠ []) →
      (out.2.changed = true ↔ out.2.newComps ≠ [])) ∧
    acc.2.processed <+: out.2.processed ∧
    ((∀ d ∈ acc.2.newComps, d.isCommandBuffer = true) →
      ∀ d ∈ out.2.newComps, d.isCommandBuffer = true) ∧
    acc.1 <+: out.1 := by
  intro cs
  induction cs with
  | nil =>
      intro acc out h
      simp only [Sched.runFold, Except.ok.injEq] at h
      subst h
      exact ⟨fun hi => hi, List.prefix_refl _, fun hi => hi, List.prefix_refl _⟩
  | cons c rest ih =>
      intro acc out h
      simp only [Sched.runFold] at h
      cases hp : Sched.processComputation config toolkit driver minLen threads acc c with
      | error e => rw [hp] at h; exact absurd h (by simp)
      | ok acc1 =>
          rw [hp] at h
          obtain ⟨p1, p2, p3, p4⟩ := processComputation_state config toolkit driver
            minLen threads acc acc1 c hp
          obtain ⟨q1, q2, q3, q4⟩ := ih acc1 out h
          exact ⟨fun hi => q1 (p1 hi), p2.trans q2, fun hall => q3 (p3 hall), p4.trans q4⟩

/-- The driver fold fails exactly at the first failing computation. -/
theorem runFold_error (config : Sched.CommandBufferConfig) (toolkit driver : Int)
    (minLen : Nat) (threads : List Nat) :
    ∀ (cs : List Sched.Computation) (acc : List Sched.Computation × Sched.PassState)
      (e : String),
    Sched.runFold config toolkit driver minLen threads acc cs = .error e →
    ∃ done c rest acc2, cs = done ++ c :: rest ∧
      Sched.runFold config toolkit driver minLen threads acc done = .ok acc2 ∧
      Sched.processComputation config toolkit driver minLen threads acc2 c = .error e := by
  intro cs
  induction cs with
  | nil => intro acc e h; simp [Sched.runFold] at h
  | cons c rest ih =>
      intro acc e h
      simp only [Sched.runFold] at h
      cases hp : Sched.processComputation config toolkit driver minLen threads acc c with
      | error e2 =>
          rw [hp] at h
          simp only [Except.error.injEq] at h
          subst h
          exact ⟨[], c, rest, acc, rfl, by simp [Sched.runFold], hp⟩
      | ok acc1 =>
          rw [hp] at h
          obtain ⟨done, c2, rest2, acc2, hcs, hfold, hproc⟩ := ih acc1 e h
          refine ⟨c :: done, c2, rest2, acc2, by rw [hcs]; rfl, ?_, hproc⟩
          simp only [Sched.runFold, hp]
          exact hfold

/-- C4: for every module and execution-thread filter, `Run` fails fast: when
it returns an error, the error came from the first failing computation (all
earlier ones processed successfully) and no module value is returned; and
when it succeeds, the returned `changed` flag is true iff at least one run
was lifted into a command buffer (iff the list of created sub-computations
is nonempty). -/
theorem run_spec (config : Sched.CommandBufferConfig) (toolkit driver : Int)
    (minLen : Nat) (threads : List Nat) (m : Sched.Module) :
    (∀ e, Sched.Run config toolkit driver minLen m threads = .error e →
       ∃ done c rest acc2, m.computations = done ++ c :: rest ∧
         Sched.runFold config toolkit driver minLen threads
           ([], Sched.initState m) done = .ok acc2 ∧
         Sched.processComputation config toolkit driver minLen threads acc2 c = .error e) ∧
    (∀ m2 ch, Sched.Run config toolkit driver minLen m threads = .ok (m2, ch) →
       ∃ acc, Sched.runFold config toolkit driver minLen threads
           ([], Sched.initState m) m.computations = .ok acc ∧
         m2 = { computations := acc.1 ++ acc.2.newComps } ∧ ch = acc.2.changed ∧
         (ch = true ↔ acc.2.newComps ≠ [])) := by
  constructor
  · intro e h
    unfold Sched.Run at h
    cases hrf : Sched.runFold config toolkit driver minLen threads
        ([], Sched.initState m) m.computations with
    | error e2 =>
        rw [hrf] at h
        simp only [Except.error.injEq] at h
        subst h
        exact runFold_error config toolkit driver minLen threads m.computations _ _ hrf
    | ok acc => rw [hrf] at h; exact absurd h (by simp)
  · intro m2 ch h
    unfold Sched.Run at h
    cases hrf : Sched.runFold config toolkit driver minLen threads
        ([], Sched.initState m) m.computations with
    | error e2 => rw [hrf] at h; exact absurd h (by simp)
    | ok acc =>
        rw [hrf] at h
        simp only [Except.ok.injEq, Prod.mk.injEq] at h
        obtain ⟨hm2, hch⟩ := h
        refine ⟨acc, rfl, hm2.symm, hch.symm, ?_⟩
        have hinv := (runFold_state config toolkit driver minLen threads
          m.computations ([], Sched.initState m) acc hrf).1
        rw [hch] at hinv
        exact hinv (by simp [Sched.initState])

/-- Witness for C4: on an empty module the pass succeeds with `changed =
false` and an empty sub-computation list. -/
theorem run_spec_witness :
    ∃ acc, Sched.runFold Examples.exCfg 12 12 1 []
        ([], Sched.initState Examples.emptyModule)
        Examples.emptyModule.computations = .ok acc ∧
      Examples.emptyModule = { computations := acc.1 ++ acc.2.newComps } ∧
      false = acc.2.changed ∧ (false = true ↔ acc.2.newComps ≠ []) :=
  (run_spec Examples.exCfg 12 12 1 [] Examples.emptyModule).2
    Examples.emptyModule false rfl

/-- C5: a computation carrying the already-lifted marker is skipped
unchanged by the driver (it is never lifted again); every sub-computation a
successful `Run` creates carries the marker; and a marked computation of the
input module survives a successful `Run` as a computation of the output
module, unchanged.  Together: re-running the pass never lifts a
sub-computation created by a previous lift. -/
theorem command_buffers_never_relifted :
    (∀ (config : Sched.CommandBufferConfig) (toolkit driver : Int) (minLen : Nat)
        (threads : List Nat) (acc : List Sched.Computation × Sched.PassState)
        (c : Sched.Computation), c.isCommandBuffer = true →
        Sched.processComputation config toolkit driver minLen threads acc c =
          .ok (acc.1 ++ [c], acc.2)) ∧
    (∀ (config : Sched.CommandBufferConfig) (toolkit driver : Int) (minLen : Nat)
        (threads : List Nat) (m : Sched.Module) (m2 : Sched.Module) (ch : Bool),
        Sched.Run config toolkit driver minLen m threads = .ok (m2, ch) →
        ∃ acc, Sched.runFold config toolkit driver minLen threads
            ([], Sched.initState m) m.computations = .ok acc ∧
          m2.computations = acc.1 ++ acc.2.newComps ∧
          ∀ c ∈ acc.2.newComps, c.isCommandBuffer = true) ∧
    (∀ (config : Sched.CommandBufferConfig) (toolkit driver : Int) (minLen : Nat)
        (threads : List Nat) (m : Sched.Module) (m2 : Sched.Module) (ch : Bool),
        Sched.Run config toolkit driver minLen m threads = .ok (m2, ch) →
        ∀ c ∈ m.computations, c.isCommandBuffer = true → c ∈ m2.computations) := by
  have hskip : ∀ (config : Sched.CommandBufferConfig) (toolkit driver : Int)
      (minLen : Nat) (threads : List Nat)
      (acc : List Sched.Computation × Sched.PassState) (c : Sched.Computation),
      c.isCommandBuffer = true →
      Sched.processComputation config toolkit driver minLen threads acc c =
        .ok (acc.1 ++ [c], acc.2) := by
    intro config toolkit driver minLen threads acc c hc
    unfold Sched.processComputation
    rw [if_pos (Or.inl hc)]
  have hkeep : ∀ (config : Sched.CommandBufferConfig) (toolkit driver : Int)
      (minLen : Nat) (threads : List Nat) (cs : List Sched.Computation)
      (acc out : List Sched.Computation × Sched.PassState),
      Sched.runFold config toolkit driver minLen threads acc cs = .ok out →
      ∀ c ∈ cs, c.isCommandBuffer = true → c ∈ out.1 := by
    intro config toolkit driver minLen threads cs
    induction cs with
    | nil => intro acc out _ c hc; simp at hc
    | cons c0 rest ih =>
        intro acc out h c hc hmark
        simp only [Sched.runFold] at h
        cases hp : Sched.processComputation config toolkit driver minLen threads acc c0 with
        | error e => rw [hp] at h; exact absurd h (by simp)
        | ok acc1 =>
            rw [hp] at h
            rcases List.mem_cons.mp hc with rfl | hc2
            · have hpc := hskip config toolkit driver minLen threads acc c hmark
              rw [hpc] at hp
              have hacc1 : acc1 = (acc.1 ++ [c], acc.2) := by
                simpa using hp.symm
              have hpref := (runFold_state config toolkit driver minLen threads
                rest acc1 out h).2.2.2
              have hmem : c ∈ acc1.1 := by
                rw [hacc1]
                exact List.mem_append_right _ (List.mem_singleton.mpr rfl)
              exact hpref.sublist.mem hmem
            · exact ih acc1 out h c hc2 hmark
  refine ⟨hskip, ?_, ?_⟩
  · intro config toolkit driver minLen threads m m2 ch h
    obtain ⟨acc, hrf, hm2, _, _⟩ := (run_spec config toolkit driver minLen threads m).2
      m2 ch h
    refine ⟨acc, hrf, by rw [hm2], ?_⟩
    exact (runFold_state config toolkit driver minLen threads m.computations
      ([], Sched.initState m) acc hrf).2.2.1 (by simp [Sched.initState])
  · intro config toolkit driver minLen threads m m2 ch h c hc hmark
    obtain ⟨acc, hrf, hm2, _, _⟩ := (run_spec config toolkit driver minLen threads m).2
      m2 ch h
    have hmem := hkeep config toolkit driver minLen threads m.computations
      ([], Sched.initState m) acc hrf c hc hmark
    rw [hm2]
    exact List.mem_append_left _ hmem

/-- Witness for C5: the marked example computation is passed through
unchanged by the driver step. -/
theorem command_buffers_never_relifted_witness :
    Sched.processComputation Examples.exCfg 12 12 1 []
      ([], Sched.initState Examples.exModule) Examples.exMarked =
      .ok ([Examples.exMarked], Sched.initState Examples.exModule) := by
  have h := command_buffers_never_relifted.1 Examples.exCfg 12 12 1 []
    ([], Sched.initState Examples.exModule) Examples.exMarked rfl
  simpa using h

/-- C9: within a single `Run` invocation the processed set grows
monotonically (the set at any earlier driver state is a prefix of the set at
any later successful state — an identity once added is never removed), and
the collector never places a call into a processed computation inside an
emitted run (such calls are non-eligible boundaries). -/
theorem processed_monotone_and_skipped :
    (∀ (config : Sched.CommandBufferConfig) (toolkit driver : Int) (minLen : Nat)
        (threads : List Nat) (acc out : List Sched.Computation × Sched.PassState)
        (cs : List Sched.Computation),
        Sched.runFold config toolkit driver minLen threads acc cs = .ok out →
        acc.2.processed <+: out.2.processed) ∧
    (∀ (config : Sched.CommandBufferConfig) (toolkit driver : Int)
        (processed : List Nat) (minLen : Nat) (sched : List Sched.Instruction)
        (r : List Sched.Instruction) (i : Sched.Instruction) (t : Nat),
        r ∈ Sched.CollectCommandBufferSequences sched config toolkit driver
          processed minLen →
        i ∈ r → i.callTarget = some t → t ∉ processed) := by
  constructor
  · intro config toolkit driver minLen threads acc out cs h
    exact (runFold_state config toolkit driver minLen threads cs acc out h).2.1
  · intro config toolkit driver processed minLen sched r i t hr hi hct
    have h := collectGo_eligible (Sched.nodeEligible config toolkit driver processed)
      minLen sched [] r i hr hi
    rcases h with h | h
    · exact absurd h (List.not_mem_nil i)
    · simp only [Sched.nodeEligible, hct, Bool.and_eq_true, decide_eq_true_eq] at h
      exact h.1

/-- Witness for C9: the example call node targets computation 9, which is
indeed outside the (empty) processed set. -/
theorem processed_monotone_and_skipped_witness : (9 : Nat) ∉ ([] : List Nat) :=
  processed_monotone_and_skipped.2 Examples.exCfg 12 12 [] 1 [Examples.exCallInst]
    [Examples.exCallInst] Examples.exCallInst 9 (by decide) (by decide) rfl

/-- C7: every failure of the callback boundary — a Python exception raised
by the callable, a non-tuple result, a tuple of the wrong arity, a non-None
value in a TOKEN result slot, or a result array whose dims differ from the
expected dims — becomes a status failure recorded in the out-of-band status
slot of `PrepareAndCall` (and of `Call` with a status slot), and the slot is
unset exactly when the whole pipeline succeeded; the boundary itself is a
total function, so no language-level exception crosses it. -/
theorem callback_failures_to_status (cb : Callback.CpuCallback)
    (callable : Callback.Callable) (inputs : List (List Nat))
    (cache : List Callback.TransposeOptions) (args : List Callback.PyObject) :
    ((Callback.PrepareAndCall cb callable inputs cache).1 = none ↔
      ∃ r, Callback.PrepareAndCallInternal cb callable inputs cache = .ok r) ∧
    (∀ e, Callback.PrepareAndCallInternal cb callable inputs cache = .error e →
        Callback.PrepareAndCall cb callable inputs cache = (some e, none)) ∧
    (∀ e, callable (Callback.marshalArgs cb.args inputs) = .error e →
        (Callback.PrepareAndCall cb callable inputs cache).1 =
          some ("CpuCallback error: " ++ e)) ∧
    (∀ s, callable (Callback.marshalArgs cb.args inputs) = .ok (.pyOther s) →
        (Callback.PrepareAndCall cb callable inputs cache).1 =
          some "CPU callback expected a tuple result") ∧
    (∀ elems, callable (Callback.marshalArgs cb.args inputs) = .ok (.pyTuple elems) →
        elems.length ≠ cb.results.length →
        (Callback.PrepareAndCall cb callable inputs cache).1 =
          some "CPU callback expected a tuple with a different number of results") ∧
    (∀ elems e, callable (Callback.marshalArgs cb.args inputs) = .ok (.pyTuple elems) →
        elems.length = cb.results.length →
        Callback.checkResultElems cb.results elems = .error e →
        (Callback.PrepareAndCall cb callable inputs cache).1 = some e) ∧
    ((Callback.CallWithStatus cb callable args).1 = none ↔
      ∃ t, Callback.CallInternal cb callable args = .ok t) := by
  refine ⟨?_, ?_, ?_, ?_, ?_, ?_, ?_⟩
  · cases hpi : Callback.PrepareAndCallInternal cb callable inputs cache with
    | error e => simp [Callback.PrepareAndCall, hpi]
    | ok r => simp [Callback.PrepareAndCall, hpi]
  · intro e he
    simp [Callback.PrepareAndCall, he]
  · intro e he
    simp [Callback.PrepareAndCall, Callback.PrepareAndCallInternal,
      Callback.CallInternal, he]
  · intro s hs
    simp [Callback.PrepareAndCall, Callback.PrepareAndCallInternal,
      Callback.CallInternal, hs]
  · intro elems hc hlen
    simp [Callback.PrepareAndCall, Callback.PrepareAndCallInternal,
      Callback.CallInternal, hc, hlen]
  · intro elems e hc hlen hcheck
    simp [Callback.PrepareAndCall, Callback.PrepareAndCallInternal,
      Callback.CallInternal, hc, hlen, hcheck]
  · cases hci : Callback.CallInternal cb callable args with
    | error e => simp [Callback.CallWithStatus, hci]
    | ok t => simp [Callback.CallWithStatus, hci]

/-- Witness for C7: a callable returning a non-tuple sets the status slot. -/
theorem callback_failures_to_status_witness :
    (Callback.PrepareAndCall Examples.exCpuCallback Examples.exBadCallable
      [[], [1, 2, 3, 4, 5, 6, 7, 8]] []).1 =
      some "CPU callback expected a tuple result" :=
  (callback_failures_to_status Examples.exCpuCallback Examples.exBadCallable
      [[], [1, 2, 3, 4, 5, 6, 7, 8]] [] []).2.2.2.1 "3" rfl

/-- C8: the copy-out step writes each validated result by direct byte copy
when the array's strides equal the expected strides, and otherwise by a
transposition whose plan comes from the plan store keyed by exactly the
transposition parameters (element byte size, array dims, reversed-layout
permutation, array striding); the store returns the cached plan on a hit
(leaving the cache unchanged) and creates-and-inserts on a miss. -/
theorem copy_out_dispatch (spec : Callback.ResultSpec) (out : Callback.PyObject)
    (cache : List Callback.TransposeOptions) :
    ((Callback.castToArray out).2.1 = spec.expected_strides →
        Callback.copyOutOne spec out cache =
          (.direct (Callback.castToArray out).2.2 spec.size_in_bytes, cache)) ∧
    ((Callback.castToArray out).2.1 ≠ spec.expected_strides →
        Callback.copyOutOne spec out cache =
          (.transposed (Callback.getOrCreate
              { elem_size_in_bytes := Callback.byteWidth spec.type,
                dims := (Callback.castToArray out).1,
                permutation := spec.reversed_layout,
                input_layout := (Callback.castToArray out).2.1 } cache).1
            (Callback.castToArray out).2.2,
            (Callback.getOrCreate
              { elem_size_in_bytes := Callback.byteWidth spec.type,
                dims := (Callback.castToArray out).1,
                permutation := spec.reversed_layout,
                input_layout := (Callback.castToArray out).2.1 } cache).2)) ∧
    (∀ (opts : Callback.TransposeOptions) (c : List Callback.TransposeOptions),
        (Callback.getOrCreate opts c).1 = opts ∧
        opts ∈ (Callback.getOrCreate opts c).2 ∧
        (opts ∈ c → (Callback.getOrCreate opts c).2 = c) ∧
        (opts ∉ c → (Callback.getOrCreate opts c).2 = c ++ [opts])) := by
  refine ⟨?_, ?_, ?_⟩
  · intro h
    simp [Callback.copyOutOne, h]
  · intro h
    simp [Callback.copyOutOne, h]
  · intro opts c
    by_cases hm : opts ∈ c
    · simp [Callback.getOrCreate, hm]
    · simp [Callback.getOrCreate, hm]

/-- Witness for C8: matching strides take the direct-copy path. -/
theorem copy_out_dispatch_witness :
    Callback.copyOutOne Examples.exResultF32
      (.pyArray [2] [4] [1, 2, 3, 4, 5, 6, 7, 8]) [] =
      (.direct [1, 2, 3, 4, 5, 6, 7, 8] 8, []) :=
  (copy_out_dispatch Examples.exResultF32
      (.pyArray [2] [4] [1, 2, 3, 4, 5, 6, 7, 8]) []).1 rfl

/-- C10 counterexample: the claim says TOKEN results are skipped by the
copy-out step, but the copy-out loop of `PrepareAndCallInternal`
(callback.cc lines 62-86) has no TOKEN case: on a callback with one TOKEN
result whose callable correctly returned None, the copy-out step still
performs an action on that output slot (here a transposition, since the 0-d
cast of None has strides `[]` while the slot's expected strides are `[1]`),
rather than skipping it. -/
theorem token_copy_out_not_skipped :
    (Callback.copyOut [Examples.exResultTok] [Callback.PyObject.pyNone] []).1 =
      [Callback.CopyAction.transposed
        { elem_size_in_bytes := 0, dims := [], permutation := [],
          input_layout := [] } []] ∧
    (Callback.copyOut [Examples.exResultTok] [Callback.PyObject.pyNone] []).1 ≠ [] := by
  decide

/-- C10 (amended): a TOKEN argument is passed to the callable as None; a
TOKEN result slot is accepted iff the callable returned None there — a
non-None value makes the validation return an error — and the shape check is
skipped for TOKEN results (the recursion continues regardless of the
expected dims); but the copy-out step processes every result slot, TOKEN
slots included (one action per spec/output pair). -/
theorem token_handling_spec :
    (∀ (input : List Nat) (spec : Callback.ArgSpec), spec.type = .TOKEN →
        Callback.marshalArg input spec = .pyNone) ∧
    (∀ (spec : Callback.ResultSpec) (specs : List Callback.ResultSpec)
        (outs : List Callback.PyObject), spec.type = .TOKEN →
        Callback.checkResultElems (spec :: specs) (.pyNone :: outs) =
          Callback.checkResultElems specs outs) ∧
    (∀ (spec : Callback.ResultSpec) (specs : List Callback.ResultSpec)
        (outs : List Callback.PyObject) (out : Callback.PyObject),
        spec.type = .TOKEN → out.is_none = false →
        Callback.checkResultElems (spec :: specs) (out :: outs) =
          .error "Token output from Python callback should be None") ∧
    (∀ (specs : List Callback.ResultSpec) (outs : List Callback.PyObject)
        (cache : List Callback.TransposeOptions),
        (Callback.copyOut specs outs cache).1.length =
          min specs.length outs.length) := by
  refine ⟨?_, ?_, ?_, ?_⟩
  · intro input spec h
    simp [Callback.marshalArg, h]
  · intro spec specs outs h
    simp [Callback.checkResultElems, h, Callback.PyObject.is_none]
  · intro spec specs outs out h hnone
    simp [Callback.checkResultElems, h, hnone]
  · intro specs
    induction specs with
    | nil => intro outs cache; simp [Callback.copyOut]
    | cons spec specs ih =>
        intro outs cache
        cases outs with
        | nil => simp [Callback.copyOut]
        | cons out outs =>
            show ((Callback.copyOutOne spec out cache).1 ::
              (Callback.copyOut specs outs (Callback.copyOutOne spec out cache).2).1).length =
              min (spec :: specs).length (out :: outs).length
            simp [ih outs (Callback.copyOutOne spec out cache).2, Nat.succ_min_succ]

/-- Witness for C10 (amended): a TOKEN argument marshals to None. -/
theorem token_handling_spec_witness :
    Callback.marshalArg [] { type := .TOKEN, dims := [], strides := [] } =
      Callback.PyObject.pyNone :=
  token_handling_spec.1 [] { type := .TOKEN, dims := [], strides := [] } rfl
